import Mathlib

/-!
# Verification of the `star-counter` core (src/main.rs)

Shallow embedding of the Rust program: an image is a grid of luminance
samples, `is_white` thresholds a pixel, `count_groups` counts maximal
8-connected groups of `true` cells with the worklist traversal
`mark_group`, and `convert_to_image` renders the boolean grid as a
black/white mask.

Grids are lists of columns (`stars[x][y]` in the source becomes column
`x`, row `y`).  A Rust panic (out-of-bounds index, failed `assert_eq!`)
is modelled by `Option`: `none` is the panicking run.
-/

namespace StarCounter

/-- A 2D grid stored as a list of columns, matching `Vec<Vec<_>>` indexed
as `g[x][y]` in the source. -/
abbrev GridOf (α : Type) := List (List α)

/-- The boolean occupancy grid (`Vec<Vec<bool>>` in the source). -/
abbrev Grid := GridOf Bool

/-- `gridGet g x y` models `g.get(x).and_then(|col| col.get(y))`:
`some` when both indices are in bounds. -/
def gridGet {α : Type} (g : GridOf α) (x y : Nat) : Option α :=
  g[x]?.bind fun col => col[y]?

/-- `setCell g x y a` models `g[x][y] = a` (a no-op when out of bounds;
in the program the write is always in bounds). -/
def setCell {α : Type} (g : GridOf α) (x y : Nat) (a : α) : GridOf α :=
  match g[x]? with
  | none => g
  | some col => g.set x (col.set y a)

/-- Height of the grid as read by the source (`stars[0].len()`),
defaulting to 0 for an empty grid. -/
def gridHeight {α : Type} (g : GridOf α) : Nat :=
  (g[0]?.getD []).length

/-- A well-formed grid: at least one column, and every column has the
same length (the grids produced from a decoded image are of this shape). -/
def gridWF {α : Type} (g : GridOf α) : Prop :=
  0 < g.length ∧ ∀ col ∈ g, col.length = gridHeight g

instance {α : Type} (g : GridOf α) : Decidable (gridWF g) := by
  unfold gridWF; infer_instance

/-- `is_white` from the source: a pixel is white iff its luminance
strictly exceeds the sensitivity (`pixel.0[0] > sensitivity`). -/
def is_white (pixel sensitivity : Nat) : Bool :=
  decide (pixel > sensitivity)

/-- `usize::checked_add_signed`: add a signed offset to an unsigned
coordinate, `none` on underflow. -/
def checked_add_signed (n : Nat) (i : Int) : Option Nat :=
  if 0 ≤ (n : Int) + i then some ((n : Int) + i).toNat else none

/-- The neighbour offsets enumerated by the two nested
`for offset in -1..=1` loops of `mark_group`, in iteration order.
(The source computes `new_x` once per `offset_x` and `continue`s on
underflow, which skips the same pairs as the per-pair check here.) -/
def neighborOffsets : List (Int × Int) :=
  [(-1, -1), (-1, 0), (-1, 1), (0, -1), (0, 0), (0, 1), (1, -1), (1, 0), (1, 1)]

/-- The body of the two inner `for offset` loops of `mark_group`: given
the popped cell `c` and the state (visited grid, worklist), examine one
neighbour offset; if the neighbour is in bounds, active and unvisited,
mark it visited and push it. -/
def processNeighbor (stars : Grid) (c : Nat × Nat)
    (st : Grid × List (Nat × Nat)) (off : Int × Int) : Grid × List (Nat × Nat) :=
  match checked_add_signed c.1 off.1 with
  | none => st
  | some nx =>
    match checked_add_signed c.2 off.2 with
    | none => st
    | some ny =>
      if gridGet stars nx ny = some true then
        if gridGet st.1 nx ny = some false then
          (setCell st.1 nx ny true, (nx, ny) :: st.2)
        else st
      else st

/-- Number of `false` entries of a boolean grid; the termination measure
of the worklist loop counts these plus the worklist length. -/
def falseCount (g : Grid) : Nat :=
  (g.map fun col => col.count false).sum

lemma count_set_true (col : List Bool) (y : Nat)
    (h : col[y]? = some false) :
    (col.set y true).count false + 1 = col.count false := by
  induction col generalizing y with
  | nil => simp at h
  | cons b t ih =>
    cases y with
    | zero =>
      simp at h
      subst h
      simp [List.count_cons]
    | succ y =>
      simp only [List.getElem?_cons_succ] at h
      have := ih y h
      simp only [List.set, List.count_cons]
      cases b <;> simp <;> omega

lemma falseCount_setCell (v : Grid) (x y : Nat)
    (h : gridGet v x y = some false) :
    falseCount (setCell v x y true) + 1 = falseCount v := by
  induction v generalizing x with
  | nil => simp [gridGet] at h
  | cons col t ih =>
    cases x with
    | zero =>
      simp only [gridGet, List.getElem?_cons_zero, Option.some_bind] at h
      simp only [setCell, List.getElem?_cons_zero, List.set, falseCount,
        List.map, List.sum_cons]
      have := count_set_true col y h
      omega
    | succ x =>
      simp only [gridGet, List.getElem?_cons_succ] at h
      have := ih x h
      simp only [setCell, List.getElem?_cons_succ] at this ⊢
      cases hg : t[x]? with
      | none =>
        rw [hg] at this
        simp only [gridGet, hg] at h
        simp at h
      | some c2 =>
        rw [hg] at this
        simp only [List.set, falseCount, List.map, List.sum_cons] at this ⊢
        omega

lemma processNeighbor_measure (stars : Grid) (c : Nat × Nat)
    (st : Grid × List (Nat × Nat)) (off : Int × Int) :
    falseCount (processNeighbor stars c st off).1
      + (processNeighbor stars c st off).2.length
      = falseCount st.1 + st.2.length := by
  unfold processNeighbor
  cases checked_add_signed c.1 off.1 with
  | none => rfl
  | some nx =>
    cases checked_add_signed c.2 off.2 with
    | none => rfl
    | some ny =>
      by_cases h1 : gridGet stars nx ny = some true
      · simp only [h1, if_pos]
        by_cases h2 : gridGet st.1 nx ny = some false
        · simp only [h2, if_pos, List.length_cons]
          have := falseCount_setCell st.1 nx ny h2
          omega
        · simp [h2]
      · simp [h1]

lemma foldl_processNeighbor_measure (stars : Grid) (c : Nat × Nat)
    (offs : List (Int × Int)) (st : Grid × List (Nat × Nat)) :
    falseCount (offs.foldl (processNeighbor stars c) st).1
      + (offs.foldl (processNeighbor stars c) st).2.length
      = falseCount st.1 + st.2.length := by
  induction offs generalizing st with
  | nil => rfl
  | cons o t ih =>
    simp only [List.foldl_cons]
    rw [ih]
    exact processNeighbor_measure stars c st o

/-- The `while let Some((x, y)) = to_visit.pop()` loop of `mark_group`:
pop a cell, process its nine neighbour offsets (growing the visited grid
and the worklist), and continue until the worklist is empty. -/
def mark_group_loop (stars : Grid) (visited : Grid)
    (to_visit : List (Nat × Nat)) : Grid :=
  match to_visit with
  | [] => visited
  | c :: rest =>
    mark_group_loop stars
      (neighborOffsets.foldl (processNeighbor stars c) (visited, rest)).1
      (neighborOffsets.foldl (processNeighbor stars c) (visited, rest)).2
termination_by falseCount visited + to_visit.length
decreasing_by
  have h := foldl_processNeighbor_measure stars c neighborOffsets (visited, rest)
  dsimp only at h
  simp only [List.length_cons]
  omega

/-- `mark_group` from the source: mark the start cell visited, then run
the worklist loop starting from the singleton worklist `[start]`. -/
def mark_group (start : Nat × Nat) (stars : Grid) (visited : Grid) : Grid :=
  mark_group_loop stars (setCell visited start.1 start.2 true) [start]

/-- The body of the scan loop in `count_groups`: at cell `c`, if the
cell is active and unvisited, count a new group and flood it. -/
def cellStep (stars : Grid) (st : Nat × Grid) (c : Nat × Nat) : Nat × Grid :=
  if (gridGet stars c.1 c.2).getD false && !((gridGet st.2 c.1 c.2).getD false)
  then (st.1 + 1, mark_group c stars st.2)
  else st

/-- The double scan loop of `count_groups` (`for y`, then `for x`),
starting from count 0 and an all-`false` visited grid. -/
def count_groups_scan (stars : Grid) : Nat × Grid :=
  (List.range (gridHeight stars)).foldl
    (fun st y => (List.range stars.length).foldl
      (fun st x => cellStep stars st (x, y)) st)
    (0, List.replicate stars.length (List.replicate (gridHeight stars) false))

/-- `count_groups` from the source.  `stars[0].len()` panics on an empty
outer vector (`none`); the final `assert_eq!(stars, &visited)` panics
when the visited grid differs from the occupancy grid (`none`). -/
def count_groups (stars : Grid) : Option Nat :=
  match stars[0]? with
  | none => none
  | some _ =>
    let st := count_groups_scan stars
    if stars = st.2 then some st.1 else none

/-- The body of the inner render loop of `convert_to_image`: active
cells are painted 255, inactive cells are left at the initial 0. -/
def convertStep (stars : Grid) (luma : GridOf Nat) (c : Nat × Nat) : GridOf Nat :=
  if (gridGet stars c.1 c.2).getD false then setCell luma c.1 c.2 255 else luma

/-- `convert_to_image` from the source: reads `stars[0].len()` (panic on
width 0), allocates an all-zero image of the same dimensions, paints
every active cell white. -/
def convert_to_image (stars : Grid) : Option (GridOf Nat) :=
  match stars[0]? with
  | none => none
  | some col0 =>
    some ((List.range col0.length).foldl
      (fun luma y => (List.range stars.length).foldl
        (fun luma x => convertStep stars luma (x, y)) luma)
      (List.replicate stars.length (List.replicate col0.length 0)))

/-- The body of the thresholding loop in `main`: store
`is_white(pixel, sensitivity)` at each cell. -/
def thresholdStep (img : GridOf Nat) (sensitivity : Nat)
    (stars : Grid) (c : Nat × Nat) : Grid :=
  setCell stars c.1 c.2 (is_white ((gridGet img c.1 c.2).getD 0) sensitivity)

/-- The thresholding loop of `main` (lines 35–41): build an occupancy
grid of the image's dimensions with `is_white` applied to every pixel. -/
def threshold (img : GridOf Nat) (sensitivity : Nat) : Grid :=
  (List.range (gridHeight img)).foldl
    (fun stars y => (List.range img.length).foldl
      (fun stars x => thresholdStep img sensitivity stars (x, y)) stars)
    (List.replicate img.length (List.replicate (gridHeight img) false))

/-! ## Specification-side notions: 8-connectivity and components -/

/-- A cell of the grid, written `(x, y)`. -/
abbrev Cell := Nat × Nat

/-- A cell is active when it is in bounds and holds `true`. -/
def Active (stars : Grid) (c : Cell) : Prop :=
  gridGet stars c.1 c.2 = some true

/-- 8-connectivity: the two cells differ by at most 1 in each
coordinate. -/
def Adj (c d : Cell) : Prop :=
  Nat.dist c.1 d.1 ≤ 1 ∧ Nat.dist c.2 d.2 ≤ 1

/-- One step of connectivity between active cells. -/
def Conn (stars : Grid) (c d : Cell) : Prop :=
  Active stars c ∧ Active stars d ∧ Adj c d

/-- `d` is reachable from the active cell `c` through a chain of
8-connected active cells. -/
def Reaches (stars : Grid) (c d : Cell) : Prop :=
  Active stars c ∧ Relation.ReflTransGen (Conn stars) c d

/-- The connected component of a cell: everything reachable from it. -/
def component (stars : Grid) (c : Cell) : Set Cell :=
  {d | Reaches stars c d}

/-- A set of cells is a connected component when it is the component of
some active cell (equivalently: a maximal set of mutually reachable
active cells). -/
def IsComponent (stars : Grid) (S : Set Cell) : Prop :=
  ∃ c, Active stars c ∧ S = component stars c

/-- The number of maximal 8-connected components of active cells. -/
noncomputable def numComponents (stars : Grid) : Nat :=
  Set.ncard {S | IsComponent stars S}

/-- A cell is recorded as visited in the visited grid. -/
def visAt (v : Grid) (c : Cell) : Prop :=
  gridGet v c.1 c.2 = some true

/-- Two grids have the same dimensions (columns of equal lengths). -/
def sameShape {α β : Type} (g : GridOf α) (h : GridOf β) : Prop :=
  ∀ x : Nat, g[x]?.map List.length = h[x]?.map List.length

/-! ## Basic lemmas about grid access -/

lemma sameShape_refl {α : Type} (g : GridOf α) : sameShape g g := fun _ => rfl

lemma sameShape_trans {α β γ : Type} {g : GridOf α} {h : GridOf β} {k : GridOf γ}
    (h1 : sameShape g h) (h2 : sameShape h k) : sameShape g k :=
  fun x => (h1 x).trans (h2 x)

lemma getElem?_lt_length {α : Type} {l : List α} {i : Nat} {a : α}
    (h : l[i]? = some a) : i < l.length := by
  by_contra hge
  rw [List.getElem?_eq_none_iff.2 (by omega)] at h
  exact Option.noConfusion h

lemma sameShape_setCell {α : Type} (g : GridOf α) (x y : Nat) (a : α) :
    sameShape (setCell g x y a) g := by
  intro x'
  unfold setCell
  cases hc : g[x]? with
  | none => rfl
  | some col =>
    by_cases hx : x = x'
    · subst hx
      rw [List.getElem?_set_self (by simpa using getElem?_lt_length hc), hc]
      simp
    · rw [List.getElem?_set_ne hx]

lemma gridGet_setCell_same_col {α : Type} (g : GridOf α) (x y y' : Nat) (a : α) :
    gridGet (setCell g x y a) x y' =
      (g[x]?.map fun col => col.set y a).bind fun col => col[y']? := by
  unfold setCell gridGet
  cases hc : g[x]? with
  | none => simp [hc]
  | some col =>
    rw [List.getElem?_set_self (by simpa using getElem?_lt_length hc)]
    simp

lemma gridGet_setCell_self {α : Type} (g : GridOf α) (x y : Nat) (a : α)
    (h : (gridGet g x y).isSome) : gridGet (setCell g x y a) x y = some a := by
  rw [gridGet_setCell_same_col]
  unfold gridGet at h
  cases hc : g[x]? with
  | none => rw [hc] at h; simp at h
  | some col =>
    rw [hc] at h
    simp only [Option.some_bind] at h
    have hy : y < col.length := by
      by_contra hge
      rw [List.getElem?_eq_none_iff.2 (by omega)] at h
      simp at h
    simp [List.getElem?_set_self hy]

lemma gridGet_setCell_other {α : Type} (g : GridOf α) (x y x' y' : Nat) (a : α)
    (h : ¬(x = x' ∧ y = y')) : gridGet (setCell g x y a) x' y' = gridGet g x' y' := by
  by_cases hx : x = x'
  · subst hx
    have hy : y ≠ y' := fun hy => h ⟨rfl, hy⟩
    rw [gridGet_setCell_same_col]
    unfold gridGet
    cases hc : g[x]? with
    | none => simp
    | some col => simp [List.getElem?_set_ne hy]
  · unfold gridGet setCell
    cases hc : g[x]? with
    | none => rfl
    | some col => rw [List.getElem?_set_ne hx]

lemma gridGet_replicate {α : Type} (w h x y : Nat) (b : α) :
    gridGet (List.replicate w (List.replicate h b)) x y =
      if x < w ∧ y < h then some b else none := by
  unfold gridGet
  rw [List.getElem?_replicate]
  by_cases hx : x < w
  · simp only [hx, if_pos, Option.some_bind]
    rw [List.getElem?_replicate]
    by_cases hy : y < h <;> simp [hx, hy]
  · simp [hx]

/-- On a well-formed grid, in-bounds access succeeds and everything else
fails. -/
lemma gridGet_isSome_iff {α : Type} {g : GridOf α} (hwf : gridWF g) (x y : Nat) :
    (gridGet g x y).isSome ↔ x < g.length ∧ y < gridHeight g := by
  unfold gridGet
  constructor
  · intro h
    cases hc : g[x]? with
    | none => rw [hc] at h; simp at h
    | some col =>
      rw [hc] at h
      have hx : x < g.length := by simpa using getElem?_lt_length hc
      have hcol : col.length = gridHeight g := hwf.2 col (List.getElem?_mem hc)
      refine ⟨hx, ?_⟩
      simp only [Option.some_bind] at h
      cases hy : col[y]? with
      | none => rw [hy] at h; simp at h
      | some b =>
        have := getElem?_lt_length hy
        omega
  · rintro ⟨hx, hy⟩
    cases hc : g[x]? with
    | none =>
      rw [List.getElem?_eq_none_iff] at hc
      omega
    | some col =>
      have hcol : col.length = gridHeight g := hwf.2 col (List.getElem?_mem hc)
      simp only [Option.some_bind]
      cases hy' : col[y]? with
      | none =>
        rw [List.getElem?_eq_none_iff] at hy'
        omega
      | some b => simp

/-! ## Connectivity lemmas -/

lemma reaches_active {stars : Grid} {s c : Cell} (h : Reaches stars s c) :
    Active stars c := by
  obtain ⟨hs, hr⟩ := h
  induction hr with
  | refl => exact hs
  | tail _ hstep _ => exact hstep.2.1

lemma adj_symm {c d : Cell} (h : Adj c d) : Adj d c := by
  unfold Adj at h ⊢
  rw [Nat.dist_comm d.1 c.1, Nat.dist_comm d.2 c.2]
  exact h

lemma conn_symm {stars : Grid} {c d : Cell} (h : Conn stars c d) :
    Conn stars d c :=
  ⟨h.2.1, h.1, adj_symm h.2.2⟩

lemma reaches_step {stars : Grid} {s c e : Cell} (h : Reaches stars s c)
    (he : Active stars e) (hadj : Adj c e) : Reaches stars s e :=
  ⟨h.1, h.2.tail ⟨reaches_active h, he, hadj⟩⟩

lemma reaches_refl {stars : Grid} {c : Cell} (h : Active stars c) :
    Reaches stars c c :=
  ⟨h, Relation.ReflTransGen.refl⟩

lemma reaches_trans {stars : Grid} {a b c : Cell} (h1 : Reaches stars a b)
    (h2 : Reaches stars b c) : Reaches stars a c :=
  ⟨h1.1, h1.2.trans h2.2⟩

lemma reaches_symm {stars : Grid} {a b : Cell} (h : Reaches stars a b) :
    Reaches stars b a := by
  refine ⟨reaches_active h, ?_⟩
  exact Relation.ReflTransGen.symmetric (fun _ _ hc => conn_symm hc) h.2

lemma component_eq_of_reaches {stars : Grid} {a b : Cell}
    (h : Reaches stars a b) : component stars a = component stars b := by
  ext d
  exact ⟨fun hd => reaches_trans (reaches_symm h) hd,
         fun hd => reaches_trans h hd⟩

lemma mem_component_self {stars : Grid} {c : Cell} (h : Active stars c) :
    c ∈ component stars c := reaches_refl h

/-- Visited cells stay visited when another cell is marked. -/
lemma visAt_setCell_mono {v : Grid} {c : Cell} (x y : Nat)
    (h : visAt v c) : visAt (setCell v x y true) c := by
  by_cases hc : x = c.1 ∧ y = c.2
  · obtain ⟨hx, hy⟩ := hc
    subst hx; subst hy
    exact gridGet_setCell_self v c.1 c.2 true (by rw [h]; rfl)
  · unfold visAt
    rw [gridGet_setCell_other v x y c.1 c.2 true hc]
    exact h

lemma visAt_setCell_sound {v : Grid} {c : Cell} {x y : Nat}
    (h : visAt (setCell v x y true) c) : c = (x, y) ∨ visAt v c := by
  by_cases hc : x = c.1 ∧ y = c.2
  · left
    obtain ⟨hx, hy⟩ := hc
    obtain ⟨cx, cy⟩ := c
    simp_all
  · right
    unfold visAt at h
    rwa [gridGet_setCell_other v x y c.1 c.2 true hc] at h

lemma sameShape_isSome {α β : Type} {g : GridOf α} {h : GridOf β}
    (hs : sameShape g h) (x y : Nat) :
    (gridGet g x y).isSome ↔ (gridGet h x y).isSome := by
  have := hs x
  unfold gridGet
  cases hg : g[x]? with
  | none =>
    rw [hg] at this
    cases hh : h[x]? with
    | none => simp
    | some ch => rw [hh] at this; simp at this
  | some cg =>
    rw [hg] at this
    cases hh : h[x]? with
    | none => rw [hh] at this; simp at this
    | some ch =>
      rw [hh] at this
      simp only [Option.map_some', Option.some.injEq] at this
      simp only [Option.some_bind]
      constructor
      · intro hy
        cases hcy : cg[y]? with
        | none => rw [hcy] at hy; simp at hy
        | some b =>
          have := getElem?_lt_length hcy
          rw [Option.isSome_iff_exists]
          cases hde : ch[y]? with
          | none => rw [List.getElem?_eq_none_iff] at hde; omega
          | some b2 => exact ⟨b2, rfl⟩
      · intro hy
        cases hcy : ch[y]? with
        | none => rw [hcy] at hy; simp at hy
        | some b =>
          have := getElem?_lt_length hcy
          rw [Option.isSome_iff_exists]
          cases hde : cg[y]? with
          | none => rw [List.getElem?_eq_none_iff] at hde; omega
          | some b2 => exact ⟨b2, rfl⟩

/-! ## Characterization of the neighbour fold in `mark_group` -/

lemma checked_add_dist {n m : Nat} {i : Int} (hi : i.natAbs ≤ 1)
    (h : checked_add_signed n i = some m) : Nat.dist n m ≤ 1 := by
  unfold checked_add_signed at h
  split at h
  · simp only [Option.some.injEq] at h
    subst h
    simp [Nat.dist]
    omega
  · exact Option.noConfusion h

lemma processNeighbor_mono {stars : Grid} {c : Cell}
    {st : Grid × List Cell} {off : Int × Int} {e : Cell}
    (h : visAt st.1 e) : visAt (processNeighbor stars c st off).1 e := by
  unfold processNeighbor
  cases checked_add_signed c.1 off.1 with
  | none => exact h
  | some nx =>
    cases checked_add_signed c.2 off.2 with
    | none => exact h
    | some ny =>
      by_cases h1 : gridGet stars nx ny = some true
      · simp only [h1, if_pos]
        by_cases h2 : gridGet st.1 nx ny = some false
        · simp only [h2, if_pos]
          exact visAt_setCell_mono nx ny h
        · simpa [h2]
      · simpa [h1]

lemma foldl_processNeighbor_mono {stars : Grid} {c : Cell}
    (offs : List (Int × Int)) (st : Grid × List Cell) {e : Cell}
    (h : visAt st.1 e) : visAt (offs.foldl (processNeighbor stars c) st).1 e := by
  induction offs generalizing st with
  | nil => exact h
  | cons o t ih =>
    simp only [List.foldl_cons]
    exact ih _ (processNeighbor_mono h)

lemma processNeighbor_wl_mono {stars : Grid} {c : Cell}
    {st : Grid × List Cell} {off : Int × Int} {e : Cell}
    (h : e ∈ st.2) : e ∈ (processNeighbor stars c st off).2 := by
  unfold processNeighbor
  cases checked_add_signed c.1 off.1 with
  | none => exact h
  | some nx =>
    cases checked_add_signed c.2 off.2 with
    | none => exact h
    | some ny =>
      by_cases h1 : gridGet stars nx ny = some true
      · simp only [h1, if_pos]
        by_cases h2 : gridGet st.1 nx ny = some false
        · simp only [h2, if_pos]
          exact List.mem_cons.2 (Or.inr h)
        · simpa [h2]
      · simpa [h1]

lemma foldl_processNeighbor_wl_mono {stars : Grid} {c : Cell}
    (offs : List (Int × Int)) (st : Grid × List Cell) {e : Cell}
    (h : e ∈ st.2) : e ∈ (offs.foldl (processNeighbor stars c) st).2 := by
  induction offs generalizing st with
  | nil => exact h
  | cons o t ih =>
    simp only [List.foldl_cons]
    exact ih _ (processNeighbor_wl_mono h)

lemma processNeighbor_shape {stars : Grid} {c : Cell}
    (st : Grid × List Cell) (off : Int × Int) :
    sameShape (processNeighbor stars c st off).1 st.1 := by
  unfold processNeighbor
  cases checked_add_signed c.1 off.1 with
  | none => exact sameShape_refl _
  | some nx =>
    cases checked_add_signed c.2 off.2 with
    | none => exact sameShape_refl _
    | some ny =>
      by_cases h1 : gridGet stars nx ny = some true
      · simp only [h1, if_pos]
        by_cases h2 : gridGet st.1 nx ny = some false
        · simp only [h2, if_pos]
          exact sameShape_setCell _ _ _ _
        · simp only [h2, if_neg, ite_false]
          exact sameShape_refl _
      · simp only [h1, if_neg, ite_false]
        exact sameShape_refl _

lemma foldl_processNeighbor_shape {stars : Grid} {c : Cell}
    (offs : List (Int × Int)) (st : Grid × List Cell) :
    sameShape (offs.foldl (processNeighbor stars c) st).1 st.1 := by
  induction offs generalizing st with
  | nil => exact sameShape_refl _
  | cons o t ih =>
    simp only [List.foldl_cons]
    exact sameShape_trans (ih _) (processNeighbor_shape st o)

/-- One neighbour step, soundness: a cell visited afterwards was either
visited before, or is an active 8-neighbour of the popped cell that is
now on the worklist; and a worklist cell afterwards was on the worklist
before, or is such a neighbour and is visited afterwards. -/
lemma processNeighbor_sound {stars : Grid} {c : Cell}
    {st : Grid × List Cell} {off : Int × Int}
    (hoff : off.1.natAbs ≤ 1 ∧ off.2.natAbs ≤ 1) :
    (∀ e, visAt (processNeighbor stars c st off).1 e →
      visAt st.1 e ∨ (e ∈ (processNeighbor stars c st off).2
        ∧ Active stars e ∧ Adj c e))
    ∧ (∀ e, e ∈ (processNeighbor stars c st off).2 →
      e ∈ st.2 ∨ (visAt (processNeighbor stars c st off).1 e
        ∧ Active stars e ∧ Adj c e)) := by
  unfold processNeighbor
  cases hx : checked_add_signed c.1 off.1 with
  | none => exact ⟨fun e he => Or.inl he, fun e he => Or.inl he⟩
  | some nx =>
    cases hy : checked_add_signed c.2 off.2 with
    | none => exact ⟨fun e he => Or.inl he, fun e he => Or.inl he⟩
    | some ny =>
      by_cases h1 : gridGet stars nx ny = some true
      · simp only [h1, if_pos]
        by_cases h2 : gridGet st.1 nx ny = some false
        · simp only [h2, if_pos]
          have hadj : Adj c (nx, ny) :=
            ⟨checked_add_dist hoff.1 hx, checked_add_dist hoff.2 hy⟩
          constructor
          · intro e he
            rcases visAt_setCell_sound he with rfl | hv
            · exact Or.inr ⟨List.mem_cons_self _ _, h1, hadj⟩
            · exact Or.inl hv
          · intro e he
            rcases List.mem_cons.1 he with rfl | hv
            · refine Or.inr ⟨?_, h1, hadj⟩
              exact gridGet_setCell_self st.1 nx ny true (by rw [h2]; rfl)
            · exact Or.inl hv
        · simp only [h2, if_neg, ite_false]
          exact ⟨fun e he => Or.inl he, fun e he => Or.inl he⟩
      · simp only [h1, if_neg, ite_false]
        exact ⟨fun e he => Or.inl he, fun e he => Or.inl he⟩

lemma foldl_processNeighbor_sound {stars : Grid} {c : Cell}
    (offs : List (Int × Int)) (st : Grid × List Cell)
    (hoffs : ∀ o ∈ offs, o.1.natAbs ≤ 1 ∧ o.2.natAbs ≤ 1) :
    (∀ e, visAt (offs.foldl (processNeighbor stars c) st).1 e →
      visAt st.1 e ∨ (e ∈ (offs.foldl (processNeighbor stars c) st).2
        ∧ Active stars e ∧ Adj c e))
    ∧ (∀ e, e ∈ (offs.foldl (processNeighbor stars c) st).2 →
      e ∈ st.2 ∨ (visAt (offs.foldl (processNeighbor stars c) st).1 e
        ∧ Active stars e ∧ Adj c e)) := by
  induction offs generalizing st with
  | nil => exact ⟨fun e he => Or.inl he, fun e he => Or.inl he⟩
  | cons o t ih =>
    simp only [List.foldl_cons]
    have ho := hoffs o (List.mem_cons_self _ _)
    have ht : ∀ o' ∈ t, o'.1.natAbs ≤ 1 ∧ o'.2.natAbs ≤ 1 :=
      fun o' h => hoffs o' (List.mem_cons.2 (Or.inr h))
    obtain ⟨ihs, ihw⟩ := ih (processNeighbor stars c st o) ht
    obtain ⟨ps, pw⟩ := @processNeighbor_sound stars c st o ho
    constructor
    · intro e he
      rcases ihs e he with hv | hnew
      · rcases ps e hv with hv0 | hnew0
        · exact Or.inl hv0
        · exact Or.inr ⟨foldl_processNeighbor_wl_mono t _ hnew0.1,
            hnew0.2.1, hnew0.2.2⟩
      · exact Or.inr hnew
    · intro e he
      rcases ihw e he with hw | hnew
      · rcases pw e hw with hw0 | hnew0
        · exact Or.inl hw0
        · exact Or.inr ⟨foldl_processNeighbor_mono t _ hnew0.1,
            hnew0.2.1, hnew0.2.2⟩
      · exact Or.inr hnew

/-- After the neighbour fold over the full offset list, every active
8-neighbour of the popped cell is visited. -/
lemma foldl_processNeighbor_hit {stars : Grid} {c : Cell}
    (offs : List (Int × Int)) (st : Grid × List Cell)
    {off : Int × Int} {nx ny : Nat}
    (hmem : off ∈ offs)
    (hx : checked_add_signed c.1 off.1 = some nx)
    (hy : checked_add_signed c.2 off.2 = some ny)
    (hact : gridGet stars nx ny = some true)
    (hsh : sameShape st.1 stars) :
    visAt (offs.foldl (processNeighbor stars c) st).1 (nx, ny) := by
  induction offs generalizing st with
  | nil => simp at hmem
  | cons o t ih =>
    simp only [List.foldl_cons]
    rcases List.mem_cons.1 hmem with rfl | hmem'
    · -- this step examines exactly the neighbour (nx, ny)
      have hvis : visAt (processNeighbor stars c st off).1 (nx, ny) := by
        unfold processNeighbor
        rw [hx, hy]
        simp only [hact, if_pos]
        by_cases h2 : gridGet st.1 nx ny = some false
        · simp only [h2, if_pos]
          exact gridGet_setCell_self st.1 nx ny true (by rw [h2]; rfl)
        · simp only [h2, if_neg, ite_false]
          have hs : (gridGet st.1 nx ny).isSome := by
            rw [sameShape_isSome hsh nx ny, hact]; rfl
          rcases Option.isSome_iff_exists.1 hs with ⟨b, hb⟩
          cases b with
          | false => exact absurd hb h2
          | true => exact hb
      exact foldl_processNeighbor_mono t _ hvis
    · exact ih (processNeighbor stars c st o) hmem'
        (sameShape_trans (processNeighbor_shape st o) hsh)

lemma natAbs_le_one_cases {i : Int} (h : i.natAbs ≤ 1) :
    i = -1 ∨ i = 0 ∨ i = 1 := by omega

lemma mem_neighborOffsets {o : Int × Int} (h1 : o.1.natAbs ≤ 1)
    (h2 : o.2.natAbs ≤ 1) : o ∈ neighborOffsets := by
  obtain ⟨o1, o2⟩ := o
  simp only at h1 h2
  unfold neighborOffsets
  rcases natAbs_le_one_cases h1 with rfl | rfl | rfl <;>
    rcases natAbs_le_one_cases h2 with rfl | rfl | rfl <;> simp

lemma neighborOffsets_bounded :
    ∀ o ∈ neighborOffsets, o.1.natAbs ≤ 1 ∧ o.2.natAbs ≤ 1 := by decide

/-- An 8-neighbour of `c` is producible by some offset of the list. -/
lemma adj_exists_offset {c d : Cell} (h : Adj c d) :
    ∃ off ∈ neighborOffsets, checked_add_signed c.1 off.1 = some d.1
      ∧ checked_add_signed c.2 off.2 = some d.2 := by
  obtain ⟨h1, h2⟩ := h
  refine ⟨((d.1 : Int) - c.1, (d.2 : Int) - c.2), ?_, ?_, ?_⟩
  · apply mem_neighborOffsets
    · unfold Nat.dist at h1; simp only; omega
    · unfold Nat.dist at h2; simp only; omega
  · unfold checked_add_signed
    have : (0 : Int) ≤ (c.1 : Int) + ((d.1 : Int) - c.1) := by omega
    rw [if_pos this]
    congr 1
    omega
  · unfold checked_add_signed
    have : (0 : Int) ≤ (c.2 : Int) + ((d.2 : Int) - c.2) := by omega
    rw [if_pos this]
    congr 1
    omega

/-- After the fold, every cell 8-connected to the popped active cell is
visited. -/
lemma foldl_neighborOffsets_conn {stars : Grid} {c : Cell}
    (st : Grid × List Cell) (hsh : sameShape st.1 stars) {d : Cell}
    (hconn : Conn stars c d) :
    visAt (neighborOffsets.foldl (processNeighbor stars c) st).1 d := by
  obtain ⟨off, hmem, hx, hy⟩ := adj_exists_offset hconn.2.2
  have : visAt (neighborOffsets.foldl (processNeighbor stars c) st).1 (d.1, d.2) :=
    foldl_processNeighbor_hit neighborOffsets st hmem hx hy hconn.2.1 hsh
  simpa using this

/-- Master invariant lemma for the worklist loop.  Starting from a
visited grid whose cells are the previously visited cells `P₀` plus
cells reachable from the active start `s`, with every worklist cell
reachable from `s` and visited, and every visited cell either pending on
the worklist or with all its connected neighbours visited, the loop
preserves shape, only grows the visited set, adds only cells reachable
from `s`, and ends with a visited set closed under connectivity. -/
lemma mark_group_loop_master (stars : Grid) (s : Cell) (P₀ : Cell → Prop)
    (v : Grid) (tv : List Cell)
    (hsh : sameShape v stars)
    (h1 : ∀ c ∈ tv, Reaches stars s c)
    (h2 : ∀ c, visAt v c → P₀ c ∨ Reaches stars s c)
    (h3 : ∀ c ∈ tv, visAt v c)
    (h4 : ∀ c, visAt v c → c ∈ tv ∨ ∀ d, Conn stars c d → visAt v d) :
    sameShape (mark_group_loop stars v tv) stars
    ∧ (∀ c, visAt v c → visAt (mark_group_loop stars v tv) c)
    ∧ (∀ c, visAt (mark_group_loop stars v tv) c → P₀ c ∨ Reaches stars s c)
    ∧ (∀ c d, visAt (mark_group_loop stars v tv) c → Conn stars c d →
        visAt (mark_group_loop stars v tv) d) := by
  induction v, tv using mark_group_loop.induct stars with
  | case1 v =>
    rw [mark_group_loop]
    refine ⟨hsh, fun c hc => hc, h2, fun c d hc hconn => ?_⟩
    rcases h4 c hc with hmem | hcl
    · simp at hmem
    · exact hcl d hconn
  | case2 v c rest ih =>
    rw [mark_group_loop]
    set F := neighborOffsets.foldl (processNeighbor stars c) (v, rest) with hF
    have hsc : Reaches stars s c := h1 c (List.mem_cons_self _ _)
    have hFsh : sameShape F.1 stars :=
      sameShape_trans (foldl_processNeighbor_shape neighborOffsets (v, rest)) hsh
    have hFm : ∀ e, visAt v e → visAt F.1 e := fun e he =>
      foldl_processNeighbor_mono neighborOffsets (v, rest) he
    obtain ⟨hFs, hFw⟩ := @foldl_processNeighbor_sound stars c
      neighborOffsets (v, rest) neighborOffsets_bounded
    have hFwm : ∀ e ∈ rest, e ∈ F.2 := fun e he =>
      foldl_processNeighbor_wl_mono neighborOffsets (v, rest) he
    have hFhit : ∀ d, Conn stars c d → visAt F.1 d := fun d hconn =>
      foldl_neighborOffsets_conn (v, rest) hsh hconn
    -- re-establish the invariants for the new state
    have h1' : ∀ e ∈ F.2, Reaches stars s e := by
      intro e he
      rcases hFw e he with hr | hnew
      · exact h1 e (List.mem_cons.2 (Or.inr hr))
      · exact reaches_step hsc hnew.2.1 hnew.2.2
    have h2' : ∀ e, visAt F.1 e → P₀ e ∨ Reaches stars s e := by
      intro e he
      rcases hFs e he with hv | hnew
      · exact h2 e hv
      · exact Or.inr (reaches_step hsc hnew.2.1 hnew.2.2)
    have h3' : ∀ e ∈ F.2, visAt F.1 e := by
      intro e he
      rcases hFw e he with hr | hnew
      · exact hFm e (h3 e (List.mem_cons.2 (Or.inr hr)))
      · exact hnew.1
    have h4' : ∀ e, visAt F.1 e → e ∈ F.2 ∨ ∀ d, Conn stars e d → visAt F.1 d := by
      intro e he
      rcases hFs e he with hv | hnew
      · rcases h4 e hv with hmem | hcl
        · rcases List.mem_cons.1 hmem with rfl | hrest
          · exact Or.inr hFhit
          · exact Or.inl (hFwm e hrest)
        · exact Or.inr fun d hconn => hFm d (hcl d hconn)
      · exact Or.inl hnew.1
    obtain ⟨gsh, gm, gs, gc⟩ := ih hFsh h1' h2' h3' h4'
    exact ⟨gsh, fun e he => gm e (hFm e he), gs, gc⟩

/-- A visited set closed under connectivity and containing `s` contains
everything reachable from `s`. -/
lemma closed_covers {stars : Grid} {w : Grid} {s : Cell}
    (hcl : ∀ c d, visAt w c → Conn stars c d → visAt w d)
    (hs : visAt w s) {d : Cell}
    (h : Relation.ReflTransGen (Conn stars) s d) : visAt w d := by
  induction h with
  | refl => exact hs
  | tail _ hstep ih => exact hcl _ _ ih hstep

/-- Specification of `mark_group` as used by the scan of `count_groups`:
flooding from an active, unvisited, in-bounds start cell marks exactly
the previously visited cells plus the connected component of the start,
keeps the grid shape, and yields a visited set closed under
connectivity (given that the previous visited set was closed). -/
lemma mark_group_spec (stars v : Grid) (s : Cell)
    (hsh : sameShape v stars)
    (hA : Active stars s)
    (hin : gridGet v s.1 s.2 = some false)
    (hclosed : ∀ c d, visAt v c → Conn stars c d → visAt v d) :
    sameShape (mark_group s stars v) stars
    ∧ (∀ c, visAt (mark_group s stars v) c ↔ visAt v c ∨ Reaches stars s c)
    ∧ (∀ c d, visAt (mark_group s stars v) c → Conn stars c d →
        visAt (mark_group s stars v) d) := by
  unfold mark_group
  set v₁ := setCell v s.1 s.2 true with hv₁
  have hv₁s : visAt v₁ s :=
    gridGet_setCell_self v s.1 s.2 true (by rw [hin]; rfl)
  have hv₁sound : ∀ c, visAt v₁ c → c = s ∨ visAt v c := by
    intro c hc
    rcases visAt_setCell_sound hc with h | h
    · left; rw [h]
    · right; exact h
  have hv₁m : ∀ c, visAt v c → visAt v₁ c := fun c hc =>
    visAt_setCell_mono s.1 s.2 hc
  have hnvs : ¬ visAt v s := by
    unfold visAt
    rw [hin]
    simp
  obtain ⟨gsh, gm, gs, gc⟩ := mark_group_loop_master stars s (visAt v) v₁ [s]
    (sameShape_trans (sameShape_setCell v s.1 s.2 true) hsh)
    (by
      intro c hc
      rcases List.mem_cons.1 hc with rfl | h
      · exact reaches_refl hA
      · simp at h)
    (by
      intro c hc
      rcases hv₁sound c hc with rfl | h
      · exact Or.inr (reaches_refl hA)
      · exact Or.inl h)
    (by
      intro c hc
      rcases List.mem_cons.1 hc with rfl | h
      · exact hv₁s
      · simp at h)
    (by
      intro c hc
      rcases hv₁sound c hc with rfl | h
      · exact Or.inl (List.mem_cons_self _ _)
      · exact Or.inr fun d hconn => hv₁m d (hclosed c d h hconn))
  refine ⟨gsh, fun c => ⟨fun hc => gs c hc, fun hc => ?_⟩, gc⟩
  rcases hc with hc | hc
  · exact gm c (hv₁m c hc)
  · exact closed_covers gc (gm s hv₁s) hc.2

/-! ## The scan of `count_groups` -/

/-- The cells visited by the double loop `for y { for x { … } }`, in
scan order. -/
def scanList (w h : Nat) : List Cell :=
  (List.range h).flatMap fun y => (List.range w).map fun x => (x, y)

lemma foldl_range_pairs {β : Type} (step : β → Cell → β) (w h : Nat) (init : β) :
    (List.range h).foldl
      (fun st y => (List.range w).foldl (fun st x => step st (x, y)) st) init
      = (scanList w h).foldl step init := by
  induction h generalizing init with
  | zero => rfl
  | succ n ih =>
    rw [List.range_succ]
    unfold scanList
    rw [List.range_succ, List.flatMap_append, List.foldl_append, List.foldl_append]
    rw [ih]
    simp only [List.flatMap_cons, List.flatMap_nil, List.append_nil]
    rw [List.foldl_map]
    rfl

lemma mem_scanList {w h : Nat} {c : Cell} :
    c ∈ scanList w h ↔ c.1 < w ∧ c.2 < h := by
  obtain ⟨x, y⟩ := c
  unfold scanList
  simp only [List.mem_flatMap, List.mem_map, List.mem_range]
  constructor
  · rintro ⟨y', hy', x', hx', heq⟩
    obtain ⟨rfl, rfl⟩ := Prod.mk.injEq .. ▸ And.intro (congrArg Prod.fst heq) (congrArg Prod.snd heq)
    exact ⟨hx', hy'⟩
  · rintro ⟨hx, hy⟩
    exact ⟨y, hy, x, hx, rfl⟩

/-! ## Finiteness of the components -/

lemma activeSet_finite {stars : Grid} (hwf : gridWF stars) :
    {c : Cell | Active stars c}.Finite := by
  apply Set.Finite.subset
    ((Finset.range stars.length ×ˢ Finset.range (gridHeight stars)).finite_toSet)
  intro c hc
  have : (gridGet stars c.1 c.2).isSome := by
    rw [hc]; rfl
  rw [gridGet_isSome_iff hwf] at this
  simp [Finset.mem_coe, Finset.mem_product, this.1, this.2]

lemma component_subset_active {stars : Grid} {S : Set Cell}
    (h : IsComponent stars S) : S ⊆ {c : Cell | Active stars c} := by
  obtain ⟨b, _, rfl⟩ := h
  intro d hd
  exact reaches_active hd

lemma components_finite {stars : Grid} (hwf : gridWF stars) :
    {S | IsComponent stars S}.Finite := by
  apply Set.Finite.subset (Set.Finite.finite_subsets (activeSet_finite hwf))
  intro S hS
  exact component_subset_active hS

/-! ## The scan invariant -/

/-- Invariant of the scan state `(groups, visited)` after the cells
satisfying `P` have been processed. -/
structure ScanInv (stars : Grid) (P : Cell → Prop) (st : Nat × Grid) : Prop where
  vis_active : ∀ c, visAt st.2 c → Active stars c
  vis_closed : ∀ c d, visAt st.2 c → Conn stars c d → visAt st.2 d
  covered : ∀ c, P c → Active stars c → visAt st.2 c
  shape : sameShape st.2 stars
  count : st.1 = Set.ncard {S | IsComponent stars S ∧ ∀ c ∈ S, visAt st.2 c}

lemma ScanInv.weaken {stars : Grid} {P Q : Cell → Prop} {st : Nat × Grid}
    (h : ScanInv stars P st) (hq : ∀ e, Q e → P e) : ScanInv stars Q st :=
  ⟨h.vis_active, h.vis_closed, fun c hc => h.covered c (hq c hc),
    h.shape, h.count⟩

lemma getD_false_eq_true {o : Option Bool} :
    o.getD false = true ↔ o = some true := by
  cases o with
  | none => simp
  | some b => cases b <;> simp

lemma cellStep_inv {stars : Grid} (hwf : gridWF stars) {P : Cell → Prop}
    {st : Nat × Grid} (a : Cell) (h : ScanInv stars P st) :
    ScanInv stars (fun e => P e ∨ e = a) (cellStep stars st a) := by
  unfold cellStep
  by_cases hg : ((gridGet stars a.1 a.2).getD false
      && !((gridGet st.2 a.1 a.2).getD false)) = true
  · rw [if_pos hg]
    rw [Bool.and_eq_true, Bool.not_eq_true'] at hg
    have hA : Active stars a := getD_false_eq_true.1 hg.1
    have hnv : ¬ visAt st.2 a := by
      unfold visAt
      intro hv
      rw [hv] at hg
      simp at hg
    have hin : gridGet st.2 a.1 a.2 = some false := by
      have hs : (gridGet st.2 a.1 a.2).isSome := by
        rw [sameShape_isSome h.shape a.1 a.2, hA]; rfl
      rcases Option.isSome_iff_exists.1 hs with ⟨b, hb⟩
      cases b with
      | false => exact hb
      | true => exact absurd hb hnv
    obtain ⟨msh, miff, mcl⟩ := mark_group_spec stars st.2 a h.shape hA hin h.vis_closed
    have hacomp : component stars a ∈
        {S | IsComponent stars S ∧ ∀ c ∈ S, visAt (mark_group a stars st.2) c} := by
      refine ⟨⟨a, hA, rfl⟩, fun d hd => ?_⟩
      exact (miff d).2 (Or.inr hd)
    refine ⟨?_, mcl, ?_, msh, ?_⟩
    · intro c hc
      rcases (miff c).1 hc with hv | hr
      · exact h.vis_active c hv
      · exact reaches_active hr
    · intro c hc hA'
      rcases hc with hc | rfl
      · exact (miff c).2 (Or.inl (h.covered c hc hA'))
      · exact (miff c).2 (Or.inr (reaches_refl hA'))
    · have hset : {S | IsComponent stars S ∧ ∀ c ∈ S, visAt (mark_group a stars st.2) c}
          = insert (component stars a)
              {S | IsComponent stars S ∧ ∀ c ∈ S, visAt st.2 c} := by
        ext S
        constructor
        · rintro ⟨⟨b, hb, rfl⟩, hsub⟩
          have hbmem : b ∈ component stars b := mem_component_self hb
          rcases (miff b).1 (hsub b hbmem) with hv | hr
          · refine Or.inr ⟨⟨b, hb, rfl⟩, fun d hd => ?_⟩
            exact closed_covers h.vis_closed hv hd.2
          · left
            exact (component_eq_of_reaches hr).symm
        · rintro (rfl | ⟨hS, hsub⟩)
          · exact hacomp
          · exact ⟨hS, fun d hd => (miff d).2 (Or.inl (hsub d hd))⟩
      have hnotmem : component stars a ∉
          {S | IsComponent stars S ∧ ∀ c ∈ S, visAt st.2 c} := by
        rintro ⟨-, hsub⟩
        exact hnv (hsub a (mem_component_self hA))
      have hfin : {S | IsComponent stars S ∧ ∀ c ∈ S, visAt st.2 c}.Finite :=
        Set.Finite.subset (components_finite hwf) (fun S hS => hS.1)
      rw [hset, Set.ncard_insert_of_not_mem hnotmem hfin, ← h.count]
  · rw [if_neg hg]
    rw [Bool.and_eq_true, Bool.not_eq_true'] at hg
    push_neg at hg
    refine ⟨h.vis_active, h.vis_closed, ?_, h.shape, h.count⟩
    intro c hc hA'
    rcases hc with hc | rfl
    · exact h.covered c hc hA'
    · have : (gridGet stars c.1 c.2).getD false = true := getD_false_eq_true.2 hA'
      have hvb := hg this
      unfold visAt
      exact getD_false_eq_true.1 (by simpa using hvb)

lemma scan_fold_inv {stars : Grid} (hwf : gridWF stars) :
    ∀ (L : List Cell) (P : Cell → Prop) (st : Nat × Grid),
      ScanInv stars P st →
      ScanInv stars (fun e => P e ∨ e ∈ L) (L.foldl (cellStep stars) st) := by
  intro L
  induction L with
  | nil =>
    intro P st h
    exact h.weaken (fun e he => by simpa using he)
  | cons a t ih =>
    intro P st h
    simp only [List.foldl_cons]
    have h1 := cellStep_inv hwf a h
    have h2 := ih (fun e => P e ∨ e = a) (cellStep stars st a) h1
    refine h2.weaken ?_
    intro e he
    rcases he with he | he
    · exact Or.inl (Or.inl he)
    · rcases List.mem_cons.1 he with rfl | hm
      · exact Or.inl (Or.inr rfl)
      · exact Or.inr hm

lemma scan_inv_init {stars : Grid} (hwf : gridWF stars) :
    ScanInv stars (fun _ => False)
      (0, List.replicate stars.length
            (List.replicate (gridHeight stars) false)) := by
  have hnovis : ∀ c : Cell, ¬ visAt
      (List.replicate stars.length (List.replicate (gridHeight stars) false)) c := by
    intro c hc
    unfold visAt at hc
    rw [gridGet_replicate] at hc
    split at hc
    · exact Bool.noConfusion (Option.some.inj hc)
    · exact Option.noConfusion hc
  refine ⟨?_, ?_, ?_, ?_, ?_⟩
  · intro c hc
    exact absurd hc (hnovis c)
  · intro c d hc
    exact absurd hc (hnovis c)
  · intro c hc
    exact absurd hc (fun _ => hc)
  · intro x
    rw [List.getElem?_replicate]
    by_cases hx : x < stars.length
    · rw [if_pos hx]
      cases hc : stars[x]? with
      | none =>
        rw [List.getElem?_eq_none_iff] at hc
        omega
      | some col =>
        have := hwf.2 col (List.getElem?_mem hc)
        simp [this]
    · rw [if_neg hx]
      cases hc : stars[x]? with
      | none => simp
      | some col =>
        have := getElem?_lt_length hc
        omega
  · have : {S | IsComponent stars S ∧ ∀ c ∈ S,
        visAt (List.replicate stars.length
          (List.replicate (gridHeight stars) false)) c} = ∅ := by
      ext S
      simp only [Set.mem_setOf_eq, Set.mem_empty_iff_false, iff_false]
      rintro ⟨⟨b, hb, rfl⟩, hsub⟩
      exact hnovis b (hsub b (mem_component_self hb))
    rw [this, Set.ncard_empty]

/-! ## Equality of grids from pointwise data -/

lemma grid_eq_of_shape_get {g h : Grid} (hsh : sameShape g h)
    (hget : ∀ x y : Nat, gridGet g x y = gridGet h x y) : g = h := by
  apply List.ext_getElem?
  intro x
  have hs := hsh x
  cases hg : g[x]? with
  | none =>
    cases hh : h[x]? with
    | none => rfl
    | some ch => rw [hg, hh] at hs; simp at hs
  | some cg =>
    cases hh : h[x]? with
    | none => rw [hg, hh] at hs; simp at hs
    | some ch =>
      rw [hg, hh] at hs
      simp only [Option.map_some', Option.some.injEq] at hs
      congr 1
      apply List.ext_getElem?
      intro y
      have := hget x y
      unfold gridGet at this
      rw [hg, hh] at this
      simpa using this

/-! ## Master correctness theorem for the scan -/

lemma count_groups_scan_eq (stars : Grid) :
    count_groups_scan stars
      = (scanList stars.length (gridHeight stars)).foldl (cellStep stars)
          (0, List.replicate stars.length
                (List.replicate (gridHeight stars) false)) := by
  unfold count_groups_scan
  exact foldl_range_pairs (cellStep stars) stars.length (gridHeight stars) _

/-- After the scan: the visited grid equals the occupancy grid, and the
group counter equals the number of connected components. -/
lemma count_groups_scan_spec {stars : Grid} (hwf : gridWF stars) :
    (count_groups_scan stars).2 = stars
    ∧ (count_groups_scan stars).1 = numComponents stars := by
  rw [count_groups_scan_eq]
  have hinv := scan_fold_inv hwf (scanList stars.length (gridHeight stars))
    (fun _ => False) _ (scan_inv_init hwf)
  set st := (scanList stars.length (gridHeight stars)).foldl (cellStep stars)
    (0, List.replicate stars.length
          (List.replicate (gridHeight stars) false)) with hst
  have hiff : ∀ c, visAt st.2 c ↔ Active stars c := by
    intro c
    constructor
    · exact hinv.vis_active c
    · intro hA
      refine hinv.covered c (Or.inr ?_) hA
      have hbound : (gridGet stars c.1 c.2).isSome := by rw [hA]; rfl
      rw [gridGet_isSome_iff hwf] at hbound
      exact mem_scanList.2 hbound
  have hveq : st.2 = stars := by
    apply grid_eq_of_shape_get hinv.shape
    intro x y
    have hsome := sameShape_isSome hinv.shape x y
    cases hv : gridGet st.2 x y with
    | none =>
      cases hs : gridGet stars x y with
      | none => rfl
      | some b =>
        rw [hv, hs] at hsome
        simp at hsome
    | some b =>
      cases hs : gridGet stars x y with
      | none =>
        rw [hv, hs] at hsome
        simp at hsome
      | some b' =>
        have h1 : visAt st.2 (x, y) ↔ Active stars (x, y) := hiff (x, y)
        unfold visAt Active at h1
        simp only [hv, hs, Option.some.injEq] at h1
        cases b <;> cases b' <;> simp_all
  refine ⟨hveq, ?_⟩
  rw [hinv.count]
  unfold numComponents
  congr 1
  ext S
  simp only [Set.mem_setOf_eq, and_iff_left_iff_imp]
  intro hS c hc
  exact (hiff c).2 (component_subset_active hS hc)

/-- For every well-formed grid, `count_groups` passes its final
assertion and returns the number of 8-connected components. -/
lemma count_groups_master {stars : Grid} (hwf : gridWF stars) :
    count_groups stars = some (numComponents stars) := by
  unfold count_groups
  cases hc : stars[0]? with
  | none =>
    rw [List.getElem?_eq_none_iff] at hc
    exact absurd hwf.1 (by omega)
  | some col0 =>
    obtain ⟨hv, hn⟩ := count_groups_scan_spec hwf
    dsimp only
    rw [if_pos hv.symm, hn]

/-! ## Shape transfer lemmas -/

lemma sameShape_length {α β : Type} {g : GridOf α} {h : GridOf β}
    (hs : sameShape g h) : g.length = h.length := by
  have hiff : ∀ x : Nat, x < g.length ↔ x < h.length := by
    intro x
    have := hs x
    constructor
    · intro hx
      cases hg : g[x]? with
      | none => rw [List.getElem?_eq_none_iff] at hg; omega
      | some cg =>
        rw [hg] at this
        cases hh : h[x]? with
        | none => rw [hh] at this; simp at this
        | some ch => exact getElem?_lt_length hh
    · intro hx
      cases hh : h[x]? with
      | none => rw [List.getElem?_eq_none_iff] at hh; omega
      | some ch =>
        rw [hh] at this
        cases hg : g[x]? with
        | none => rw [hg] at this; simp at this
        | some cg => exact getElem?_lt_length hg
  have h1 := hiff g.length
  have h2 := hiff h.length
  omega

lemma sameShape_gridHeight {α β : Type} {g : GridOf α} {h : GridOf β}
    (hs : sameShape g h) : gridHeight g = gridHeight h := by
  have := hs 0
  unfold gridHeight
  cases hg : g[0]? with
  | none =>
    rw [hg] at this
    cases hh : h[0]? with
    | none => simp
    | some ch => rw [hh] at this; simp at this
  | some cg =>
    rw [hg] at this
    cases hh : h[0]? with
    | none => rw [hh] at this; simp at this
    | some ch =>
      rw [hh] at this
      simpa using this

lemma gridWF_of_sameShape {α β : Type} {g : GridOf α} {h : GridOf β}
    (hs : sameShape g h) (hwf : gridWF h) : gridWF g := by
  constructor
  · rw [sameShape_length hs]
    exact hwf.1
  · intro col hcol
    obtain ⟨x, hx⟩ := List.getElem?_of_mem hcol
    have := hs x
    rw [hx] at this
    cases hh : h[x]? with
    | none => rw [hh] at this; simp at this
    | some ch =>
      rw [hh] at this
      simp only [Option.map_some', Option.some.injEq] at this
      rw [this, sameShape_gridHeight hs]
      exact hwf.2 ch (List.getElem?_mem hh)

lemma sameShape_replicate {α β : Type} {g : GridOf β} (hwf : gridWF g) (a : α) :
    sameShape (List.replicate g.length (List.replicate (gridHeight g) a)) g := by
  intro x
  rw [List.getElem?_replicate]
  by_cases hx : x < g.length
  · rw [if_pos hx]
    cases hc : g[x]? with
    | none =>
      rw [List.getElem?_eq_none_iff] at hc
      omega
    | some col =>
      have := hwf.2 col (List.getElem?_mem hc)
      simp [this]
  · rw [if_neg hx]
    cases hc : g[x]? with
    | none => simp
    | some col =>
      have := getElem?_lt_length hc
      omega

lemma grid_eq_of_shape_get_in {g h : Grid} (hsh : sameShape g h)
    (hget : ∀ x y : Nat, (gridGet h x y).isSome →
      gridGet g x y = gridGet h x y) : g = h := by
  apply grid_eq_of_shape_get hsh
  intro x y
  by_cases hb : (gridGet h x y).isSome
  · exact hget x y hb
  · have hg : ¬ (gridGet g x y).isSome := by
      rw [sameShape_isSome hsh x y]
      exact hb
    rw [Option.not_isSome_iff_eq_none] at hb hg
    rw [hb, hg]

/-! ## Characterization of write-only scans (renderer and thresholder) -/

lemma foldl_step_shape {α : Type} (step : GridOf α → Cell → GridOf α)
    (Hsh : ∀ g c, sameShape (step g c) g) :
    ∀ (L : List Cell) (g : GridOf α), sameShape (L.foldl step g) g := by
  intro L
  induction L with
  | nil => intro g; exact sameShape_refl g
  | cons a t ih =>
    intro g
    simp only [List.foldl_cons]
    exact sameShape_trans (ih (step g a)) (Hsh g a)

/-- Generic invariant for a scan that writes `target c` at each cell
`c`: after processing the cells of `L`, every processed in-bounds cell
holds its target value, and every in-bounds cell holds either the
initial value or its target. -/
lemma write_fold_inv {α : Type} {w h : Nat} {a : α}
    {step : GridOf α → Cell → GridOf α} {target : Cell → α}
    (Hown : ∀ (g : GridOf α) (c : Cell), c.1 < w → c.2 < h →
      (gridGet g c.1 c.2 = some a ∨ gridGet g c.1 c.2 = some (target c)) →
      gridGet (step g c) c.1 c.2 = some (target c))
    (Hoth : ∀ (g : GridOf α) (c c' : Cell), c' ≠ c →
      gridGet (step g c) c'.1 c'.2 = gridGet g c'.1 c'.2) :
    ∀ (L : List Cell) (P : Cell → Prop) (g : GridOf α),
      (∀ c ∈ L, c.1 < w ∧ c.2 < h) →
      (∀ c : Cell, c.1 < w → c.2 < h →
        (gridGet g c.1 c.2 = some a ∨ gridGet g c.1 c.2 = some (target c))
        ∧ (P c → gridGet g c.1 c.2 = some (target c))) →
      ∀ c : Cell, c.1 < w → c.2 < h →
        (gridGet (L.foldl step g) c.1 c.2 = some a
          ∨ gridGet (L.foldl step g) c.1 c.2 = some (target c))
        ∧ ((P c ∨ c ∈ L) → gridGet (L.foldl step g) c.1 c.2 = some (target c)) := by
  intro L
  induction L with
  | nil =>
    intro P g _ hInv c hcx hcy
    refine ⟨(hInv c hcx hcy).1, ?_⟩
    rintro (hP | hm)
    · exact (hInv c hcx hcy).2 hP
    · simp at hm
  | cons d t ih =>
    intro P g hL hInv c hcx hcy
    simp only [List.foldl_cons]
    have hd := hL d (List.mem_cons_self _ _)
    have ht : ∀ c ∈ t, c.1 < w ∧ c.2 < h :=
      fun c hc => hL c (List.mem_cons.2 (Or.inr hc))
    have hInv' : ∀ c : Cell, c.1 < w → c.2 < h →
        (gridGet (step g d) c.1 c.2 = some a
          ∨ gridGet (step g d) c.1 c.2 = some (target c))
        ∧ ((P c ∨ c = d) → gridGet (step g d) c.1 c.2 = some (target c)) := by
      intro c hcx hcy
      by_cases hcd : c = d
      · subst hcd
        have := Hown g c hcx hcy (hInv c hcx hcy).1
        exact ⟨Or.inr this, fun _ => this⟩
      · rw [Hoth g d c hcd]
        refine ⟨(hInv c hcx hcy).1, ?_⟩
        rintro (hP | rfl)
        · exact (hInv c hcx hcy).2 hP
        · exact absurd rfl hcd
    have := ih (fun c => P c ∨ c = d) (step g d) ht hInv' c hcx hcy
    refine ⟨this.1, ?_⟩
    rintro (hP | hm)
    · exact this.2 (Or.inl (Or.inl hP))
    · rcases List.mem_cons.1 hm with rfl | hm'
      · exact this.2 (Or.inl (Or.inr rfl))
      · exact this.2 (Or.inr hm')

/-- The rendered mask: same dimensions as the occupancy grid, 255 at
active cells, 0 at inactive cells. -/
lemma convert_to_image_spec {stars : Grid} (hwf : gridWF stars) :
    ∃ img, convert_to_image stars = some img ∧ sameShape img stars ∧
      ∀ x y : Nat, x < stars.length → y < gridHeight stars →
        gridGet img x y
          = some (if (gridGet stars x y).getD false then (255 : Nat) else 0) := by
  unfold convert_to_image
  cases hc : stars[0]? with
  | none =>
    rw [List.getElem?_eq_none_iff] at hc
    exact absurd hwf.1 (by omega)
  | some col0 =>
    have hcol0 : col0.length = gridHeight stars := by
      unfold gridHeight
      rw [hc]
      rfl
    refine ⟨_, rfl, ?_, ?_⟩
    all_goals rw [hcol0, foldl_range_pairs (convertStep stars)]
    · refine sameShape_trans (foldl_step_shape (convertStep stars) ?_ _ _)
        (sameShape_replicate hwf 0)
      intro g c
      unfold convertStep
      by_cases hb : (gridGet stars c.1 c.2).getD false = true
      · rw [if_pos hb]
        exact sameShape_setCell g c.1 c.2 255
      · rw [if_neg hb]
        exact sameShape_refl g
    · intro x y hx hy
      have Hown : ∀ (g : GridOf Nat) (c : Cell),
          c.1 < stars.length → c.2 < gridHeight stars →
          (gridGet g c.1 c.2 = some 0
            ∨ gridGet g c.1 c.2
              = some (if (gridGet stars c.1 c.2).getD false then (255:Nat) else 0)) →
          gridGet (convertStep stars g c) c.1 c.2
            = some (if (gridGet stars c.1 c.2).getD false then (255:Nat) else 0) := by
        intro g c hcx hcy hprev
        unfold convertStep
        by_cases hb : (gridGet stars c.1 c.2).getD false = true
        · rw [if_pos hb, hb, if_pos rfl]
          apply gridGet_setCell_self
          rcases hprev with hp | hp <;> rw [hp] <;> rfl
        · rw [if_neg hb]
          rw [Bool.not_eq_true] at hb
          rw [hb]
          simp only [Bool.false_eq_true, if_neg, ite_false]
          rcases hprev with hp | hp
          · exact hp
          · rw [hb] at hp
            simpa using hp
      have Hoth : ∀ (g : GridOf Nat) (c c' : Cell), c' ≠ c →
          gridGet (convertStep stars g c) c'.1 c'.2 = gridGet g c'.1 c'.2 := by
        intro g c c' hne
        unfold convertStep
        by_cases hb : (gridGet stars c.1 c.2).getD false = true
        · rw [if_pos hb]
          apply gridGet_setCell_other
          rintro ⟨h1, h2⟩
          exact hne (Prod.ext h1.symm h2.symm)
        · rw [if_neg hb]
      have hinit : ∀ c : Cell, c.1 < stars.length → c.2 < gridHeight stars →
          (gridGet (List.replicate stars.length
              (List.replicate (gridHeight stars) (0:Nat))) c.1 c.2 = some 0
            ∨ gridGet (List.replicate stars.length
              (List.replicate (gridHeight stars) (0:Nat))) c.1 c.2
              = some (if (gridGet stars c.1 c.2).getD false then (255:Nat) else 0))
          ∧ (False → gridGet (List.replicate stars.length
              (List.replicate (gridHeight stars) (0:Nat))) c.1 c.2
              = some (if (gridGet stars c.1 c.2).getD false then (255:Nat) else 0)) := by
        intro c hcx hcy
        rw [gridGet_replicate]
        rw [if_pos ⟨hcx, hcy⟩]
        exact ⟨Or.inl rfl, fun hf => absurd hf (fun h => h)⟩
      have := write_fold_inv Hown Hoth
        (scanList stars.length (gridHeight stars)) (fun _ => False)
        (List.replicate stars.length (List.replicate (gridHeight stars) 0))
        (fun c hc => mem_scanList.1 hc) hinit (x, y) hx hy
      exact this.2 (Or.inr (mem_scanList.2 ⟨hx, hy⟩))

/-- The occupancy grid built by the thresholding loop: image dimensions,
`is_white` of the pixel at every cell. -/
lemma threshold_spec {img : GridOf Nat} (hwf : gridWF img) (s : Nat) :
    sameShape (threshold img s) img ∧
    ∀ x y : Nat, x < img.length → y < gridHeight img →
      gridGet (threshold img s) x y
        = some (is_white ((gridGet img x y).getD 0) s) := by
  unfold threshold
  constructor
  all_goals rw [foldl_range_pairs (thresholdStep img s)]
  · refine sameShape_trans (foldl_step_shape (thresholdStep img s) ?_ _ _)
      (sameShape_replicate hwf false)
    intro g c
    unfold thresholdStep
    exact sameShape_setCell g c.1 c.2 _
  · intro x y hx hy
    have Hown : ∀ (g : Grid) (c : Cell),
        c.1 < img.length → c.2 < gridHeight img →
        (gridGet g c.1 c.2 = some false
          ∨ gridGet g c.1 c.2
            = some (is_white ((gridGet img c.1 c.2).getD 0) s)) →
        gridGet (thresholdStep img s g c) c.1 c.2
          = some (is_white ((gridGet img c.1 c.2).getD 0) s) := by
      intro g c hcx hcy hprev
      unfold thresholdStep
      apply gridGet_setCell_self
      rcases hprev with hp | hp <;> rw [hp] <;> rfl
    have Hoth : ∀ (g : Grid) (c c' : Cell), c' ≠ c →
        gridGet (thresholdStep img s g c) c'.1 c'.2 = gridGet g c'.1 c'.2 := by
      intro g c c' hne
      unfold thresholdStep
      apply gridGet_setCell_other
      rintro ⟨h1, h2⟩
      exact hne (Prod.ext h1.symm h2.symm)
    have hinit : ∀ c : Cell, c.1 < img.length → c.2 < gridHeight img →
        (gridGet (List.replicate img.length
            (List.replicate (gridHeight img) false)) c.1 c.2 = some false
          ∨ gridGet (List.replicate img.length
            (List.replicate (gridHeight img) false)) c.1 c.2
            = some (is_white ((gridGet img c.1 c.2).getD 0) s))
        ∧ (False → gridGet (List.replicate img.length
            (List.replicate (gridHeight img) false)) c.1 c.2
            = some (is_white ((gridGet img c.1 c.2).getD 0) s)) := by
      intro c hcx hcy
      rw [gridGet_replicate, if_pos ⟨hcx, hcy⟩]
      exact ⟨Or.inl rfl, fun hf => absurd hf (fun h => h)⟩
    have := write_fold_inv Hown Hoth
      (scanList img.length (gridHeight img)) (fun _ => False)
      (List.replicate img.length (List.replicate (gridHeight img) false))
      (fun c hc => mem_scanList.1 hc) hinit (x, y) hx hy
    exact this.2 (Or.inr (mem_scanList.2 ⟨hx, hy⟩))

/-! ## Termination bound for the worklist loop -/

/-- Number of iterations performed by the `while let` loop of
`mark_group` (same recursion structure as `mark_group_loop`, counting
the pops). -/
def mark_group_loop_iters (stars : Grid) (visited : Grid)
    (to_visit : List (Nat × Nat)) : Nat :=
  match to_visit with
  | [] => 0
  | c :: rest =>
    mark_group_loop_iters stars
      (neighborOffsets.foldl (processNeighbor stars c) (visited, rest)).1
      (neighborOffsets.foldl (processNeighbor stars c) (visited, rest)).2 + 1
termination_by falseCount visited + to_visit.length
decreasing_by
  have h := foldl_processNeighbor_measure stars c neighborOffsets (visited, rest)
  dsimp only at h
  simp only [List.length_cons]
  omega

/-- Because every pushed cell is freshly marked visited, the loop pops
at most one element per unvisited cell plus the initial worklist: the
iteration count is bounded, so the traversal terminates. -/
lemma mark_group_loop_iters_le (stars : Grid) :
    ∀ (v : Grid) (tv : List (Nat × Nat)),
      mark_group_loop_iters stars v tv ≤ falseCount v + tv.length := by
  intro v tv
  induction v, tv using mark_group_loop_iters.induct stars with
  | case1 v =>
    rw [mark_group_loop_iters]
    omega
  | case2 v c rest ih =>
    rw [mark_group_loop_iters]
    have h := foldl_processNeighbor_measure stars c neighborOffsets (v, rest)
    dsimp only at h
    simp only [List.length_cons]
    omega

/-! ## Unfolding equations for concrete evaluation -/

lemma mark_group_loop_nil (stars v : Grid) : mark_group_loop stars v [] = v := by
  rw [mark_group_loop]

lemma mark_group_loop_cons (stars v : Grid) (c : Nat × Nat)
    (rest : List (Nat × Nat)) :
    mark_group_loop stars v (c :: rest)
      = mark_group_loop stars
          (neighborOffsets.foldl (processNeighbor stars c) (v, rest)).1
          (neighborOffsets.foldl (processNeighbor stars c) (v, rest)).2 := by
  rw [mark_group_loop]

/-- Structurally recursive clone of `mark_group_loop` with explicit
fuel, used only to evaluate the loop on concrete grids (the kernel
cannot reduce the well-founded recursion). -/
def mark_group_loop_fuel (stars : Grid) : Nat → Grid → List (Nat × Nat) → Grid
  | _, v, [] => v
  | 0, v, _ :: _ => v
  | fuel + 1, v, c :: rest =>
    mark_group_loop_fuel stars fuel
      (neighborOffsets.foldl (processNeighbor stars c) (v, rest)).1
      (neighborOffsets.foldl (processNeighbor stars c) (v, rest)).2

lemma mark_group_loop_eq_fuel (stars : Grid) :
    ∀ (fuel : Nat) (v : Grid) (tv : List (Nat × Nat)),
      falseCount v + tv.length ≤ fuel →
      mark_group_loop stars v tv = mark_group_loop_fuel stars fuel v tv := by
  intro fuel
  induction fuel with
  | zero =>
    intro v tv h
    cases tv with
    | nil => rw [mark_group_loop_nil]; rfl
    | cons c rest => simp at h
  | succ f ih =>
    intro v tv h
    cases tv with
    | nil => rw [mark_group_loop_nil]; rfl
    | cons c rest =>
      rw [mark_group_loop_cons]
      show _ = mark_group_loop_fuel stars f _ _
      apply ih
      have hm := foldl_processNeighbor_measure stars c neighborOffsets (v, rest)
      dsimp only at hm
      simp only [List.length_cons] at h
      omega

/-- Executable form of `mark_group` (enough fuel for the loop to run to
completion). -/
def mark_group_exec (start : Nat × Nat) (stars : Grid) (visited : Grid) : Grid :=
  mark_group_loop_fuel stars
    (falseCount (setCell visited start.1 start.2 true) + 1)
    (setCell visited start.1 start.2 true) [start]

lemma mark_group_eq_exec (start : Nat × Nat) (stars : Grid) (visited : Grid) :
    mark_group start stars visited = mark_group_exec start stars visited := by
  unfold mark_group mark_group_exec
  exact mark_group_loop_eq_fuel stars _ _ _ (by simp)

/-! ## Helper lemmas for the claims -/

lemma no_active_numComponents {stars : Grid}
    (h : ∀ c : Cell, ¬ Active stars c) : numComponents stars = 0 := by
  unfold numComponents
  have : {S | IsComponent stars S} = ∅ := by
    ext S
    simp only [Set.mem_setOf_eq, Set.mem_empty_iff_false, iff_false]
    rintro ⟨b, hb, rfl⟩
    exact h b hb
  rw [this, Set.ncard_empty]

lemma numComponents_zero_no_active {stars : Grid} (hwf : gridWF stars)
    (h : numComponents stars = 0) : ∀ c : Cell, ¬ Active stars c := by
  intro c hA
  unfold numComponents at h
  rw [Set.ncard_eq_zero (components_finite hwf)] at h
  have hmem : component stars c ∈ {S | IsComponent stars S} := ⟨c, hA, rfl⟩
  rw [h] at hmem
  exact hmem

lemma all_false_iff_no_active {stars : Grid} :
    (∀ col ∈ stars, ∀ b ∈ col, b = false) ↔ ∀ c : Cell, ¬ Active stars c := by
  constructor
  · intro h c hA
    unfold Active gridGet at hA
    cases hc : stars[c.1]? with
    | none => rw [hc] at hA; simp at hA
    | some col =>
      rw [hc] at hA
      simp only [Option.some_bind] at hA
      have := h col (List.getElem?_mem hc) true (List.getElem?_mem hA)
      exact Bool.noConfusion this
  · intro h col hcol b hb
    by_contra hbt
    have hb' : b = true := by
      cases b
      · exact absurd rfl hbt
      · rfl
    subst hb'
    obtain ⟨x, hx⟩ := List.getElem?_of_mem hcol
    obtain ⟨y, hy⟩ := List.getElem?_of_mem hb
    apply h (x, y)
    unfold Active gridGet
    rw [hx]
    simpa using hy

lemma active_bounds {stars : Grid} (hwf : gridWF stars) {c : Cell}
    (h : Active stars c) : c.1 < stars.length ∧ c.2 < gridHeight stars := by
  have : (gridGet stars c.1 c.2).isSome := by rw [h]; rfl
  rwa [gridGet_isSome_iff hwf] at this

/-! ## The claims -/

/-- C1: for every well-formed occupancy grid (rectangular, width ≥ 1),
`count_groups` returns exactly the number of maximal 8-connected
components of `true` cells (cells are 8-connected when they differ by at
most 1 in each coordinate; a component is a maximal set of active cells
mutually reachable through chains of 8-connected active cells). -/
theorem count_groups_counts_components (stars : Grid) (hwf : gridWF stars) :
    count_groups stars = some (numComponents stars) :=
  count_groups_master hwf

theorem count_groups_counts_components_witness :
    gridWF [[true, false], [false, true]]
    ∧ count_groups [[true, false], [false, true]]
        = some (numComponents [[true, false], [false, true]]) :=
  ⟨by decide, count_groups_counts_components [[true, false], [false, true]] (by decide)⟩

/-- C2: for every well-formed occupancy grid, after the scan of
`count_groups` the Visited Grid equals the Occupancy Grid cell for cell,
so the fatal assertion at the end of `count_groups` never fires (the
result is `some`, not the panicking `none`). -/
theorem visited_grid_equals_occupancy (stars : Grid) (hwf : gridWF stars) :
    (count_groups_scan stars).2 = stars ∧ (count_groups stars).isSome = true := by
  refine ⟨(count_groups_scan_spec hwf).1, ?_⟩
  rw [count_groups_master hwf]
  rfl

theorem visited_grid_equals_occupancy_witness :
    gridWF [[true, true], [false, true]]
    ∧ ((count_groups_scan [[true, true], [false, true]]).2
          = [[true, true], [false, true]]
        ∧ (count_groups [[true, true], [false, true]]).isSome = true) :=
  ⟨by decide, visited_grid_equals_occupancy [[true, true], [false, true]] (by decide)⟩

/-- C3: for every intensity and sensitivity in [0, 255], the thresholder
classifies a cell active iff its intensity strictly exceeds the
sensitivity; an intensity equal to the sensitivity is inactive; and with
sensitivity 255 every cell of an (8-bit) image is inactive, so the
resulting count is 0. -/
theorem is_white_strict_threshold (p s : Nat) (img : GridOf Nat)
    (hp : p ≤ 255) (hs : s ≤ 255) (hwf : gridWF img)
    (hpix : ∀ col ∈ img, ∀ q ∈ col, q ≤ 255) :
    (is_white p s = true ↔ s < p)
    ∧ is_white s s = false
    ∧ count_groups (threshold img 255) = some 0 := by
  refine ⟨by simp [is_white], by simp [is_white], ?_⟩
  obtain ⟨hsh, hcell⟩ := threshold_spec hwf 255
  have hwfT : gridWF (threshold img 255) := gridWF_of_sameShape hsh hwf
  rw [count_groups_master hwfT]
  have hnone : ∀ c : Cell, ¬ Active (threshold img 255) c := by
    intro c hA
    have hb := active_bounds hwfT hA
    rw [sameShape_length hsh] at hb
    have hyb : c.2 < gridHeight img := by
      have := sameShape_gridHeight hsh
      omega
    have hval := hcell c.1 c.2 hb.1 hyb
    have hpxs : (gridGet img c.1 c.2).isSome :=
      (gridGet_isSome_iff hwf c.1 c.2).2 ⟨hb.1, hyb⟩
    rcases Option.isSome_iff_exists.1 hpxs with ⟨q, hq⟩
    have hqle : q ≤ 255 := by
      unfold gridGet at hq
      cases hcq : img[c.1]? with
      | none => rw [hcq] at hq; simp at hq
      | some col =>
        rw [hcq] at hq
        simp only [Option.some_bind] at hq
        exact hpix col (List.getElem?_mem hcq) q (List.getElem?_mem hq)
    rw [hq] at hval
    unfold Active at hA
    rw [hval] at hA
    simp only [Option.getD_some, Option.some.injEq] at hA
    unfold is_white at hA
    simp at hA
    omega
  rw [no_active_numComponents hnone]

theorem is_white_strict_threshold_witness :
    (255 ≤ 255 ∧ 255 ≤ 255 ∧ gridWF [[(255 : Nat)]]
      ∧ (∀ col ∈ [[(255 : Nat)]], ∀ q ∈ col, q ≤ 255))
    ∧ ((is_white 255 255 = true ↔ 255 < 255)
        ∧ is_white 255 255 = false
        ∧ count_groups (threshold [[(255 : Nat)]] 255) = some 0) :=
  ⟨⟨by decide, by decide, by decide, by decide⟩,
    is_white_strict_threshold 255 255 [[(255 : Nat)]]
      (by decide) (by decide) (by decide) (by decide)⟩

/-- C4: for every well-formed occupancy grid, `count_groups` returns 0
iff every cell of the grid is `false`. -/
theorem count_groups_zero_iff_all_false (stars : Grid) (hwf : gridWF stars) :
    count_groups stars = some 0 ↔ ∀ col ∈ stars, ∀ b ∈ col, b = false := by
  rw [count_groups_master hwf]
  constructor
  · intro h
    apply all_false_iff_no_active.2
    exact numComponents_zero_no_active hwf (by simpa using h)
  · intro h
    have := no_active_numComponents (all_false_iff_no_active.1 h)
    simp [this]

theorem count_groups_zero_iff_all_false_witness :
    gridWF [[false, false]]
    ∧ (count_groups [[false, false]] = some 0
        ↔ ∀ col ∈ [[false, false]], ∀ b ∈ col, b = false) :=
  ⟨by decide, count_groups_zero_iff_all_false [[false, false]] (by decide)⟩

/-- C5: for every well-formed occupancy grid and sensitivity strictly
below 255, rendering with the mask renderer and re-thresholding the
rendered image yields back the original occupancy grid. -/
theorem render_threshold_roundtrip (stars : Grid) (s : Nat)
    (hwf : gridWF stars) (hs : s < 255) :
    ∃ img, convert_to_image stars = some img ∧ threshold img s = stars := by
  obtain ⟨img, himg, hsh, hcell⟩ := convert_to_image_spec hwf
  refine ⟨img, himg, ?_⟩
  have hwf' : gridWF img := gridWF_of_sameShape hsh hwf
  obtain ⟨htsh, htcell⟩ := threshold_spec hwf' s
  apply grid_eq_of_shape_get_in (sameShape_trans htsh hsh)
  intro x y hb
  have hbounds := (gridGet_isSome_iff hwf x y).1 hb
  have hxi : x < img.length := by rw [sameShape_length hsh]; exact hbounds.1
  have hyi : y < gridHeight img := by
    have := sameShape_gridHeight hsh
    omega
  rw [htcell x y hxi hyi, hcell x y hbounds.1 hbounds.2]
  rcases Option.isSome_iff_exists.1 hb with ⟨b, hbv⟩
  rw [hbv]
  cases b with
  | false => simp [is_white]
  | true => simp [is_white, hs]

theorem render_threshold_roundtrip_witness :
    (gridWF [[true, false]] ∧ 20 < 255)
    ∧ ∃ img, convert_to_image [[true, false]] = some img
        ∧ threshold img 20 = [[true, false]] :=
  ⟨⟨by decide, by decide⟩,
    render_threshold_roundtrip [[true, false]] 20 (by decide) (by decide)⟩

/-- C6: for every well-formed occupancy grid, `convert_to_image`
produces an intensity grid of identical dimensions in which every active
cell has value 255 and every inactive cell has value 0 (so an
all-inactive grid renders all-zero). -/
theorem convert_to_image_mask (stars : Grid) (hwf : gridWF stars) :
    ∃ img, convert_to_image stars = some img ∧ sameShape img stars
      ∧ ∀ x y : Nat, ∀ b : Bool, gridGet stars x y = some b →
          gridGet img x y = some (if b then 255 else 0) := by
  obtain ⟨img, himg, hsh, hcell⟩ := convert_to_image_spec hwf
  refine ⟨img, himg, hsh, ?_⟩
  intro x y b hb
  have hbounds := (gridGet_isSome_iff hwf x y).1 (by rw [hb]; rfl)
  rw [hcell x y hbounds.1 hbounds.2, hb]
  cases b <;> rfl

theorem convert_to_image_mask_witness :
    gridWF [[true], [false]]
    ∧ ∃ img, convert_to_image [[true], [false]] = some img
        ∧ sameShape img [[true], [false]]
        ∧ ∀ x y : Nat, ∀ b : Bool, gridGet [[true], [false]] x y = some b →
            gridGet img x y = some (if b then 255 else 0) :=
  ⟨by decide, convert_to_image_mask [[true], [false]] (by decide)⟩

/-- C7: a well-formed grid whose only active cell is the corner (0,0)
counts as exactly one group, completing without failure; offsets that
would underflow a coordinate at 0 are skipped (`checked_add_signed`
returns `none` rather than failing). -/
theorem corner_star_single_group (stars : Grid) (hwf : gridWF stars)
    (h00 : gridGet stars 0 0 = some true)
    (honly : ∀ x ∈ List.range stars.length, ∀ y ∈ List.range (gridHeight stars),
      gridGet stars x y = some true → x = 0 ∧ y = 0) :
    count_groups stars = some 1 ∧ checked_add_signed 0 (-1) = none := by
  refine ⟨?_, rfl⟩
  rw [count_groups_master hwf]
  have honly' : ∀ c : Cell, Active stars c → c = ((0, 0) : Cell) := by
    intro c hA
    have hb := active_bounds hwf hA
    have := honly c.1 (List.mem_range.2 hb.1) c.2 (List.mem_range.2 hb.2) hA
    exact Prod.ext this.1 this.2
  have hset : {S | IsComponent stars S} = {component stars ((0, 0) : Cell)} := by
    ext S
    simp only [Set.mem_setOf_eq, Set.mem_singleton_iff]
    constructor
    · rintro ⟨b, hb, rfl⟩
      rw [honly' b hb]
    · rintro rfl
      exact ⟨(0, 0), h00, rfl⟩
  unfold numComponents
  rw [hset, Set.ncard_singleton]

theorem corner_star_single_group_witness :
    (gridWF [[true, false], [false, false]]
      ∧ gridGet [[true, false], [false, false]] 0 0 = some true
      ∧ ∀ x ∈ List.range ([[true, false], [false, false]] : Grid).length,
          ∀ y ∈ List.range (gridHeight ([[true, false], [false, false]] : Grid)),
          gridGet [[true, false], [false, false]] x y = some true → x = 0 ∧ y = 0)
    ∧ (count_groups [[true, false], [false, false]] = some 1
        ∧ checked_add_signed 0 (-1) = none) :=
  ⟨⟨by decide, by decide, by decide⟩,
    corner_star_single_group [[true, false], [false, false]]
      (by decide) (by decide) (by decide)⟩

/-- C8: on the 3×3 grid whose only active cells are the four corners
(centre inactive), `count_groups` returns exactly 4: the corners are not
within one 8-connectivity step of each other. -/
theorem corners_grid_four_groups :
    count_groups [[true, false, true], [false, false, false], [true, false, true]]
      = some 4 := by
  simp only [count_groups, count_groups_scan, cellStep, mark_group_eq_exec]
  decide

/-- C9: for every well-formed grid and in-bounds start cell, the
worklist traversal of `mark_group` terminates: each cell is pushed at
most once (it is marked visited before being pushed), so the loop pops
at most `falseCount visited + 1` times from the frontier. -/
theorem mark_group_terminates (stars v : Grid) (s : Nat × Nat)
    (hwf : gridWF stars) (hx : s.1 < stars.length)
    (hy : s.2 < gridHeight stars) :
    mark_group s stars v = mark_group_loop stars (setCell v s.1 s.2 true) [s]
    ∧ mark_group_loop_iters stars (setCell v s.1 s.2 true) [s]
        ≤ falseCount (setCell v s.1 s.2 true) + 1 :=
  ⟨rfl, by simpa using mark_group_loop_iters_le stars (setCell v s.1 s.2 true) [s]⟩

theorem mark_group_terminates_witness :
    (gridWF [[true]] ∧ (0 : Nat) < ([[true]] : Grid).length
      ∧ (0 : Nat) < gridHeight ([[true]] : Grid))
    ∧ (mark_group (0, 0) [[true]] [[false]]
          = mark_group_loop [[true]] (setCell [[false]] 0 0 true) [(0, 0)]
        ∧ mark_group_loop_iters [[true]] (setCell [[false]] 0 0 true) [(0, 0)]
            ≤ falseCount (setCell [[false]] 0 0 true) + 1) :=
  ⟨⟨by decide, by decide, by decide⟩,
    mark_group_terminates [[true]] [[false]] (0, 0)
      (by decide) (by decide) (by decide)⟩

/-- C10: `count_groups` and `convert_to_image` read `stars[0]`
unconditionally, so on a width-0 grid both panic (`none`); on a
well-formed grid of height 0 `count_groups` returns 0 and
`convert_to_image` returns an empty image of the same width. -/
theorem zero_width_panics_zero_height_ok (stars : Grid)
    (hwf : gridWF stars) (h0 : gridHeight stars = 0) :
    count_groups ([] : Grid) = none
    ∧ convert_to_image ([] : Grid) = none
    ∧ count_groups stars = some 0
    ∧ convert_to_image stars = some (List.replicate stars.length ([] : List Nat)) := by
  refine ⟨rfl, rfl, ?_, ?_⟩
  · rw [count_groups_master hwf]
    have hna : ∀ c : Cell, ¬ Active stars c := by
      intro c hA
      have := (active_bounds hwf hA).2
      omega
    rw [no_active_numComponents hna]
  · unfold convert_to_image
    cases hc : stars[0]? with
    | none =>
      rw [List.getElem?_eq_none_iff] at hc
      exact absurd hwf.1 (by omega)
    | some col0 =>
      have hcol0 : col0.length = 0 := by
        have := hwf.2 col0 (List.getElem?_mem hc)
        omega
      dsimp only
      rw [hcol0]
      simp

theorem zero_width_panics_zero_height_ok_witness :
    (gridWF ([[], []] : Grid) ∧ gridHeight ([[], []] : Grid) = 0)
    ∧ (count_groups ([] : Grid) = none
        ∧ convert_to_image ([] : Grid) = none
        ∧ count_groups ([[], []] : Grid) = some 0
        ∧ convert_to_image ([[], []] : Grid)
            = some (List.replicate ([[], []] : Grid).length ([] : List Nat))) :=
  ⟨⟨by decide, by decide⟩,
    zero_width_panics_zero_height_ok ([[], []] : Grid) (by decide) (by decide)⟩

end StarCounter
